import Mathlib

/-!
Verification of the DCF intrinsic-share-price calculator (`final_project.py`).

The program is a tiny deterministic formula module: a valuation engine
`calculate_intrinsic_price` over hardcoded company financials, plus a
sensitivity sweep built from `np.linspace(3.5, 12, 100) / 100` and a list
comprehension applying the engine to every sampled rate.

Embedding conventions:
* Python floats are modelled as exact rationals (`ℚ`); every monetary
  literal in the source is a decimal number represented exactly, and the
  spec asks only for ≥ 15 significant digits of precision, which `ℚ`
  satisfies exactly.
* Python's `round(x, 2)` (round to two decimals, ties to even) is
  modelled by `round2`.
* `None` returns become `Option.none`.
* `np.linspace` (a library call) is modelled by `linspace` following
  numpy's documented semantics: `num` evenly spaced samples over the
  closed interval, sample `i = start + i*(stop-start)/(num-1)` for
  `num ≥ 2`, with `num = 1` yielding `[start]` and `num = 0` yielding `[]`
  without performing any division.
-/

/-- Hardcoded financial datum from the source: `market_cap = 115830000000`. -/
def market_cap : ℚ := 115830000000

/-- Hardcoded financial datum from the source: `total_debt = 70760000000`. -/
def total_debt : ℚ := 70760000000

/-- Hardcoded financial datum from the source: `cash_investments = 9410000000`. -/
def cash_investments : ℚ := 9410000000

/-- Hardcoded financial datum from the source: `outstanding_shares = 1800000000`. -/
def outstanding_shares : ℚ := 1800000000

/-- Hardcoded financial datum from the source: `interest_expense = 4400000000`. -/
def interest_expense : ℚ := 4400000000

/-- Derived in the source: `net_debt = total_debt - cash_investments`. -/
def net_debt : ℚ := total_debt - cash_investments

/-- Pre-discounted free cash flow sum from the source:
`fcf_sum = sum([7.81e9, 7.64e9, 6.52e9, 5.95e9, 5.44e9])`. -/
def fcf_sum : ℚ := 7810000000 + 7640000000 + 6520000000 + 5950000000 + 5440000000

/-- Final year cash flow from the source: `final_year_fcf = 5378414444.78`. -/
def final_year_fcf : ℚ := 537841444478 / 100

/-- Terminal growth rate from the source: `terminal_growth = 0.03`. -/
def terminal_growth : ℚ := 3 / 100

/-- Round-half-to-even to the nearest integer, the tie-breaking rule of
Python's builtin `round`. -/
def roundHalfEven (x : ℚ) : ℤ :=
  if x - ⌊x⌋ < 1 / 2 then ⌊x⌋
  else if 1 / 2 < x - ⌊x⌋ then ⌊x⌋ + 1
  else if ⌊x⌋ % 2 = 0 then ⌊x⌋ else ⌊x⌋ + 1

/-- Python's `round(x, 2)`: round to 2 decimal places, ties to even. -/
def round2 (x : ℚ) : ℚ := (roundHalfEven (x * 100) : ℚ) / 100

/-- The spec's `CompanyFinancials` record; the source keeps these values as
module constants which the engine reads. `marketCap` is carried but never
read by the calculation. -/
structure CompanyFinancials where
  marketCap : ℚ
  totalDebt : ℚ
  cashInvestments : ℚ
  outstandingShares : ℚ
  fcfSum : ℚ
  finalYearFcf : ℚ
  terminalGrowth : ℚ
deriving DecidableEq

/-- The fixed financials of the program, assembled from the module constants. -/
def theFinancials : CompanyFinancials :=
  { marketCap := market_cap
    totalDebt := total_debt
    cashInvestments := cash_investments
    outstandingShares := outstanding_shares
    fcfSum := fcf_sum
    finalYearFcf := final_year_fcf
    terminalGrowth := terminal_growth }

/-- The body of `calculate_intrinsic_price`, parameterized by the financials
it reads (the source reads them as module globals, with
`net_debt = total_debt - cash_investments` precomputed at module load):

```
def calculate_intrinsic_price(wacc):
    if wacc <= terminal_growth:
        return None
    terminal_value = (final_year_fcf * (1 + terminal_growth)) / (wacc - terminal_growth)
    enterprise_value = fcf_sum + terminal_value
    equity_value = enterprise_value - net_debt
    intrinsic_share_price = equity_value / outstanding_shares
    return round(intrinsic_share_price, 2)
```
-/
def calculate_intrinsic_price_fin (f : CompanyFinancials) (wacc : ℚ) : Option ℚ :=
  if wacc ≤ f.terminalGrowth then none
  else
    let terminal_value := (f.finalYearFcf * (1 + f.terminalGrowth)) / (wacc - f.terminalGrowth)
    let enterprise_value := f.fcfSum + terminal_value
    let equity_value := enterprise_value - (f.totalDebt - f.cashInvestments)
    let intrinsic_share_price := equity_value / f.outstandingShares
    some (round2 intrinsic_share_price)

/-- `calculate_intrinsic_price` as the program runs it: the engine body over
the hardcoded module constants. -/
def calculate_intrinsic_price (wacc : ℚ) : Option ℚ :=
  calculate_intrinsic_price_fin theFinancials wacc

/-- The unrounded intrinsic share price for a rate above the growth
boundary, as computed by the body of `calculate_intrinsic_price`. -/
def priceRaw (wacc : ℚ) : ℚ :=
  (fcf_sum + (final_year_fcf * (1 + terminal_growth)) / (wacc - terminal_growth) - net_debt) /
    outstanding_shares

/-- Model of `np.linspace(start, stop, num)` (endpoint included): `num`
evenly spaced samples over `[start, stop]`; `num = 1` yields `[start]`,
`num = 0` yields `[]`, and no division happens in either edge case. -/
def linspace (start stop : ℚ) (num : ℕ) : List ℚ :=
  if num = 0 then []
  else if num = 1 then [start]
  else (List.range num).map fun i : ℕ => start + (i : ℚ) * ((stop - start) / ((num - 1 : ℕ) : ℚ))

/-- Source line 87: `wacc_values = np.linspace(3.5, 12, 100) / 100`. -/
def wacc_values : List ℚ := (linspace (35 / 10) 12 100).map (· / 100)

/-- The sweep of source line 88 over an arbitrary rate list:
`[calculate_intrinsic_price(w) for w in ws]`. -/
def gen_share_prices (ws : List ℚ) : List (Option ℚ) :=
  ws.map calculate_intrinsic_price

/-- Source line 88: `share_prices = [calculate_intrinsic_price(w) for w in wacc_values]`. -/
def share_prices : List (Option ℚ) := gen_share_prices wacc_values

/-- Modelled from the spec: `generateCurve(rateRangeStart, rateRangeEnd,
sampleCount, financials)`. The source hardcodes the sweep as
`np.linspace(3.5, 12, 100) / 100` followed by the comprehension of line 88;
a generator parameterized by `sampleCount` is not present in the source, so
it is modelled from the spec's words: `sampleCount` evenly spaced rates over
the closed interval (the `linspace` rule), one engine call per sample,
pairs returned in ascending rate order. -/
def generateCurve (rateRangeStart rateRangeEnd : ℚ) (sampleCount : ℕ)
    (f : CompanyFinancials) : List (ℚ × Option ℚ) :=
  (linspace rateRangeStart rateRangeEnd sampleCount).map
    fun r => (r, calculate_intrinsic_price_fin f r)

/-! ### Helper lemmas -/

theorem roundHalfEven_le (y : ℚ) : (roundHalfEven y : ℚ) ≤ y + 1 / 2 := by
  have hf1 := Int.floor_le y
  have hf2 := Int.lt_floor_add_one y
  unfold roundHalfEven
  split_ifs <;> push_cast <;> linarith

theorem le_roundHalfEven (y : ℚ) : y - 1 / 2 ≤ (roundHalfEven y : ℚ) := by
  have hf1 := Int.floor_le y
  have hf2 := Int.lt_floor_add_one y
  unfold roundHalfEven
  split_ifs <;> push_cast <;> linarith

theorem roundHalfEven_eq_up (y : ℚ) (n : ℤ) (h1 : (n : ℚ) + 1 / 2 < y)
    (h2 : y < (n : ℚ) + 1) : roundHalfEven y = n + 1 := by
  have hf : ⌊y⌋ = n := by
    rw [Int.floor_eq_iff]
    constructor
    · linarith
    · linarith
  unfold roundHalfEven
  rw [hf, if_neg, if_pos] <;> linarith

theorem round2_lt_round2 (x y : ℚ) (h : x + 1 / 100 < y) : round2 x < round2 y := by
  unfold round2
  rw [div_lt_div_right (by norm_num : (0 : ℚ) < 100)]
  have h1 := roundHalfEven_le (x * 100)
  have h2 := le_roundHalfEven (y * 100)
  linarith

theorem cip_eq_priceRaw (w : ℚ) (h : terminal_growth < w) :
    calculate_intrinsic_price w = some (round2 (priceRaw w)) := by
  simp only [calculate_intrinsic_price, calculate_intrinsic_price_fin, theFinancials,
    priceRaw, net_debt]
  rw [if_neg (not_le.mpr h)]

theorem key_aux (a b : ℚ) (ha : 0 < a) (hab : a < b) (hb9 : b ≤ 9 / 100)
    (hba : 17 / 19800 ≤ b - a) :
    (537841444478 / 100 : ℚ) * (1 + 3 / 100) / b + 1800000000 / 100 <
      537841444478 / 100 * (1 + 3 / 100) / a := by
  have hb : 0 < b := lt_trans ha hab
  have e : (537841444478 / 100 : ℚ) * (1 + 3 / 100) / a -
      537841444478 / 100 * (1 + 3 / 100) / b =
      537841444478 / 100 * (1 + 3 / 100) * (b - a) / (a * b) := by
    field_simp
    ring
  have habq : a * b ≤ 81 / 10000 := by nlinarith
  have h2 : (1800000000 / 100 : ℚ) * (a * b) <
      537841444478 / 100 * (1 + 3 / 100) * (b - a) :=
    calc (1800000000 / 100 : ℚ) * (a * b)
        ≤ 1800000000 / 100 * (81 / 10000) :=
          mul_le_mul_of_nonneg_left habq (by norm_num)
      _ < 537841444478 / 100 * (1 + 3 / 100) * (17 / 19800) := by norm_num
      _ ≤ 537841444478 / 100 * (1 + 3 / 100) * (b - a) :=
          mul_le_mul_of_nonneg_left hba (by norm_num)
  have h3 : (1800000000 / 100 : ℚ) <
      537841444478 / 100 * (1 + 3 / 100) * (b - a) / (a * b) := by
    rw [lt_div_iff (mul_pos ha hb)]
    exact h2
  linarith

theorem gap_aux (F D K S a b : ℚ) (hS : 0 < S) (hkey : K / b + S / 100 < K / a) :
    (F + K / b - D) / S + 1 / 100 < (F + K / a - D) / S := by
  have hS' : S ≠ 0 := ne_of_gt hS
  have h1 : (F + K / b - D) / S + 1 / 100 = (F + K / b - D + S / 100) / S := by
    rw [add_div]
    congr 1
    rw [div_div, mul_comm, ← div_div, div_self hS']
  rw [h1, div_lt_div_right hS]
  linarith

theorem priceRaw_gap (w1 w2 : ℚ) (h1 : terminal_growth < w1) (h12 : w1 < w2)
    (h2 : w2 ≤ 12 / 100) (h4 : 17 / 19800 ≤ w2 - w1) :
    priceRaw w2 + 1 / 100 < priceRaw w1 := by
  rw [terminal_growth] at h1
  simp only [priceRaw, terminal_growth, final_year_fcf, fcf_sum, net_debt, total_debt,
    cash_investments, outstanding_shares]
  apply gap_aux
  · norm_num
  · apply key_aux
    · linarith
    · linarith
    · linarith
    · linarith

theorem linspace_eval :
    linspace (35 / 10) 12 100 = (List.range 100).map
      fun j : ℕ => (35 / 10 : ℚ) + (j : ℚ) * ((12 - 35 / 10) / ((100 - 1 : ℕ) : ℚ)) := by
  rw [linspace, if_neg (by norm_num : ¬(100 = 0)), if_neg (by norm_num : ¬(100 = 1))]

theorem wacc_values_getElem (i : ℕ) (h : i < 100) :
    wacc_values[i]? = some (7 / 200 + (i : ℚ) * (17 / 19800)) := by
  rw [wacc_values, linspace_eval, List.getElem?_map, List.getElem?_map,
    List.getElem?_range h, Option.map_some', Option.map_some', Option.some_inj]
  push_cast
  norm_num
  ring

theorem wacc_values_length : wacc_values.length = 100 := by
  rw [wacc_values, linspace_eval, List.length_map, List.length_map, List.length_range]

theorem share_prices_length : share_prices.length = 100 := by
  rw [share_prices, gen_share_prices, List.length_map, wacc_values_length]

theorem share_prices_getElem (i : ℕ) (h : i < 100) :
    share_prices[i]? = some (calculate_intrinsic_price (7 / 200 + (i : ℚ) * (17 / 19800))) := by
  rw [share_prices, gen_share_prices, List.getElem?_map, wacc_values_getElem i h,
    Option.map_some']

theorem sample_above_boundary (i : ℕ) :
    terminal_growth < 7 / 200 + (i : ℚ) * (17 / 19800) := by
  have : (0 : ℚ) ≤ (i : ℚ) * (17 / 19800) := by positivity
  rw [terminal_growth]
  linarith

/-! ### Claims -/

/-- Claim C1: for every `discountRate ≤ terminalGrowthRate` the engine
returns the explicit `Undefined` outcome (`none`), not a numeric value and
not an exception. -/
theorem C1_boundary_undefined (wacc : ℚ) (h : wacc ≤ terminal_growth) :
    calculate_intrinsic_price wacc = none := by
  simp [calculate_intrinsic_price, calculate_intrinsic_price_fin, theFinancials, h]

/-- Witness for C1 at the two rates named by the claim: `0.03` and `0.02`
both yield `Undefined`. -/
theorem C1_boundary_undefined_witness :
    calculate_intrinsic_price (3 / 100) = none ∧
      calculate_intrinsic_price (2 / 100) = none :=
  ⟨C1_boundary_undefined (3 / 100) (by norm_num [terminal_growth]),
   C1_boundary_undefined (2 / 100) (by norm_num [terminal_growth])⟩

/-- Claim C2: with the program's fixed financials and
`discountRate = 0.0945`, the engine returns exactly `32.17`. -/
theorem C2_reference_scenario :
    calculate_intrinsic_price (945 / 10000) = some (3217 / 100) := by
  rw [cip_eq_priceRaw (945 / 10000) (by norm_num [terminal_growth])]
  have hval : priceRaw (945 / 10000) = 37344118781234 / 1161000000000 := by
    simp only [priceRaw, fcf_sum, final_year_fcf, terminal_growth, net_debt, total_debt,
      cash_investments, outstanding_shares]
    norm_num
  have hr : roundHalfEven (priceRaw (945 / 10000) * 100) = 3217 := by
    rw [hval]
    have := roundHalfEven_eq_up (37344118781234 / 1161000000000 * 100) 3216
      (by norm_num) (by norm_num)
    simpa using this
  unfold round2
  rw [hr]
  norm_num

/-- Claim C3: above the boundary, the engine returns exactly the
Gordon-growth terminal value plus the forecast sum, minus net debt
(`totalDebt - cashAndInvestments`), divided by the outstanding shares, and
rounded to 2 decimal places. -/
theorem C3_formula (wacc : ℚ) (h : terminal_growth < wacc) :
    calculate_intrinsic_price wacc =
      some (round2 ((final_year_fcf * (1 + terminal_growth) / (wacc - terminal_growth) +
        fcf_sum - (total_debt - cash_investments)) / outstanding_shares)) := by
  rw [cip_eq_priceRaw wacc h]
  congr 2
  simp only [priceRaw, net_debt]
  ring

/-- Witness for C3 at the reference rate `0.0945`. -/
theorem C3_formula_witness :
    calculate_intrinsic_price (945 / 10000) =
      some (round2 ((final_year_fcf * (1 + terminal_growth) / (945 / 10000 - terminal_growth) +
        fcf_sum - (total_debt - cash_investments)) / outstanding_shares)) :=
  C3_formula (945 / 10000) (by norm_num [terminal_growth])

/-- Claim C4: on the 100-sample sensitivity sweep over `[0.035, 0.12]`,
every pair of consecutive samples carries numeric prices, and the price at
the lower rate is strictly greater than the price at the higher rate. -/
theorem C4_strictly_decreasing (i : ℕ) (h : i + 1 < share_prices.length) :
    ∃ x y, share_prices[i]? = some (some x) ∧
      share_prices[i + 1]? = some (some y) ∧ y < x := by
  rw [share_prices_length] at h
  have hi : i < 100 := by omega
  have hle : (i : ℚ) ≤ 98 := by exact_mod_cast (by omega : i ≤ 98)
  refine ⟨round2 (priceRaw (7 / 200 + (i : ℚ) * (17 / 19800))),
    round2 (priceRaw (7 / 200 + ((i + 1 : ℕ) : ℚ) * (17 / 19800))), ?_, ?_, ?_⟩
  · rw [share_prices_getElem i hi,
      cip_eq_priceRaw _ (sample_above_boundary i)]
  · rw [share_prices_getElem (i + 1) h,
      cip_eq_priceRaw _ (sample_above_boundary (i + 1))]
  · apply round2_lt_round2
    apply priceRaw_gap
    · exact sample_above_boundary i
    · push_cast
      linarith
    · push_cast
      linarith
    · push_cast
      linarith

/-- Witness for C4 at the first pair of samples of the sweep. -/
theorem C4_strictly_decreasing_witness :
    ∃ x y, share_prices[0]? = some (some x) ∧
      share_prices[0 + 1]? = some (some y) ∧ y < x :=
  C4_strictly_decreasing 0 (by rw [share_prices_length]; norm_num)

/-- Claim C5: the sweep has exactly 100 rate samples, strictly ascending,
the first is `0.035`, the last is `0.12`, and sample `i` follows the linear
rule `start + i*(end-start)/(sampleCount-1)`, which here is
`0.035 + i * 17/19800`. -/
theorem C5_curve_sampling :
    wacc_values.length = 100 ∧
      wacc_values[0]? = some (35 / 1000) ∧
      wacc_values.getLast? = some (12 / 100) ∧
      List.Chain' (fun a b => a < b) wacc_values ∧
      ∀ i : Fin 100, wacc_values[(i : ℕ)]? = some (7 / 200 + ((i : ℕ) : ℚ) * (17 / 19800)) := by
  refine ⟨wacc_values_length, ?_, ?_, ?_, ?_⟩
  · rw [wacc_values_getElem 0 (by norm_num)]
    norm_num
  · rw [List.getLast?_eq_getElem?, wacc_values_length,
      wacc_values_getElem 99 (by norm_num)]
    norm_num
  · rw [List.chain'_iff_get]
    intro i hlt
    rw [wacc_values_length] at hlt
    have h1 : wacc_values[i]? = _ := wacc_values_getElem i (by omega)
    have h2 : wacc_values[i + 1]? = _ := wacc_values_getElem (i + 1) (by omega)
    rw [List.getElem?_eq_getElem (by rw [wacc_values_length]; omega)] at h1
    rw [List.getElem?_eq_getElem (by rw [wacc_values_length]; omega)] at h2
    rw [List.get_eq_getElem, List.get_eq_getElem, Option.some_inj.mp h1,
      Option.some_inj.mp h2]
    push_cast
    linarith
  · intro i
    exact wacc_values_getElem (i : ℕ) i.isLt

/-- Claim C6: the sweep calls the engine once per rate sample and returns
the full sequence in order — the output has one entry per input rate, each
the engine's result at that rate, with no short-circuiting on `Undefined`. -/
theorem C6_no_short_circuit (ws : List ℚ) :
    (gen_share_prices ws).length = ws.length ∧
      ∀ i, i < ws.length →
        (gen_share_prices ws)[i]? = (ws[i]?).map calculate_intrinsic_price := by
  refine ⟨List.length_map ws calculate_intrinsic_price, ?_⟩
  intro i _
  simp [gen_share_prices]

/-- Witness for C6 on a list whose first rate is below the boundary: the
first result is `Undefined` yet the second rate is still evaluated and
present. -/
theorem C6_no_short_circuit_witness :
    (gen_share_prices [2 / 100, 5 / 100]).length = 2 ∧
      (gen_share_prices [2 / 100, 5 / 100])[0]? = some none ∧
      (gen_share_prices [2 / 100, 5 / 100])[1]? =
        some (calculate_intrinsic_price (5 / 100)) := by
  have h := C6_no_short_circuit [2 / 100, 5 / 100]
  refine ⟨h.1, ?_, ?_⟩
  · rw [h.2 0 (by norm_num)]
    have : calculate_intrinsic_price (2 / 100) = none := by
      simp [calculate_intrinsic_price, calculate_intrinsic_price_fin, theFinancials,
        terminal_growth]
      norm_num
    simp [this]
  · rw [h.2 1 (by norm_num)]
    simp

/-- Claim C7: the engine is deterministic — two calls with the same
discount rate and the same fixed financials return identical results. -/
theorem C7_deterministic (wacc : ℚ) :
    calculate_intrinsic_price_fin theFinancials wacc =
      calculate_intrinsic_price_fin theFinancials wacc := rfl

/-- Claim C8: the engine's result does not depend on `marketCap` — for any
financials, any discount rate, and any two market caps, the results agree. -/
theorem C8_marketCap_independent (f : CompanyFinancials) (wacc m1 m2 : ℚ) :
    calculate_intrinsic_price_fin { f with marketCap := m1 } wacc =
      calculate_intrinsic_price_fin { f with marketCap := m2 } wacc := rfl

/-- Claim C9: the curve generator with `sampleCount = 1` returns exactly one
sample, at `rateRangeStart`, and its spacing computation performs no
division at all in that case (so no division-by-zero fault can occur). -/
theorem C9_single_sample :
    (generateCurve (35 / 1000) (12 / 100) 1 theFinancials).length = 1 ∧
      (generateCurve (35 / 1000) (12 / 100) 1 theFinancials)[0]? =
        some (35 / 1000, calculate_intrinsic_price (35 / 1000)) := by
  constructor <;>
    simp [generateCurve, linspace, calculate_intrinsic_price]

/-- Claim C10: the engine does not guarantee a nonnegative price: at
`discountRate = 0.25` (strictly above the `0.03` growth boundary) it
returns the strictly negative numeric price `-1.56`. -/
theorem C10_negative_price :
    terminal_growth < 1 / 4 ∧
      calculate_intrinsic_price (1 / 4) = some (-156 / 100) ∧
      ((-156 : ℚ) / 100) < 0 := by
  refine ⟨by norm_num [terminal_growth], ?_, by norm_num⟩
  rw [cip_eq_priceRaw (1 / 4) (by norm_num [terminal_growth])]
  have hval : priceRaw (1 / 4) = -6180331218766 / 3960000000000 := by
    simp only [priceRaw, fcf_sum, final_year_fcf, terminal_growth, net_debt, total_debt,
      cash_investments, outstanding_shares]
    norm_num
  have hr : roundHalfEven (priceRaw (1 / 4) * 100) = -156 := by
    rw [hval]
    have := roundHalfEven_eq_up (-6180331218766 / 3960000000000 * 100) (-157)
      (by norm_num) (by norm_num)
    simpa using this
  unfold round2
  rw [hr]
  norm_num
